import Mathlib

/-!
# Verification of the Harmodel generators

Shallow embedding of `harmodel/models.py` (`ModelGenerator`) and
`harmodel/client.py` (`ClientGenerator`): JSON values are a tagged union,
Python dicts are association lists in insertion order, and the Python
standard-library collaborators that the generators call (`json.loads`,
`urllib.parse.urlparse`, `str` methods, `re` substitution) are modelled as
executable Lean functions over `String`/`List Char` (ASCII character model).
-/

namespace Harmodel

/-- JSON values as produced by Python's `json.loads`: null, booleans,
integers, floats (kept as an exact decimal mantissa/exponent pair; no claim
inspects a float's numeric value), strings, arrays and objects.  Object
fields are kept in insertion order, mirroring a Python `dict`. -/
inductive Json where
  | null : Json
  | bool (b : Bool) : Json
  | int (n : Int) : Json
  | float (mantissa : Int) (exponent : Int) : Json
  | str (s : String) : Json
  | arr (items : List Json) : Json
  | obj (fields : List (String × Json)) : Json

/-- `type(data).__name__` for each JSON value, as Python reports it. -/
def pyTypeName : Json → String
  | .null => "NoneType"
  | .bool _ => "bool"
  | .int _ => "int"
  | .float _ _ => "float"
  | .str _ => "str"
  | .arr _ => "list"
  | .obj _ => "dict"

/-- `ModelGenerator._infer_type` (models.py:99-121): infer a Python type
hint from a JSON value.  Python checks `bool` before `int` because `bool`
is a subclass of `int`; the tagged union makes the branches disjoint, and
the branch order here follows the source.  The source's trailing
`return "Any"` is unreachable for values produced by `json.loads` and has
no counterpart in the total match.  The `fieldName` argument is threaded
through recursive calls exactly as in the source (it is never read). -/
def inferType (value : Json) (fieldName : String) : String :=
  match value with
  | .null => "Optional[Any]"
  | .bool _ => "bool"
  | .int _ => "int"
  | .float _ _ => "float"
  | .str _ => "str"
  | .arr [] => "List[Any]"
  | .arr (first :: _) => "List[" ++ inferType first fieldName ++ "]"
  | .obj _ => "Dict[str, Any]"

/-- Python `str.lower()` on a character, restricted to ASCII (every string
the claims exercise is ASCII; Python lowercases `A`-`Z` to `a`-`z`). -/
def lowerChar (c : Char) : Char :=
  if 'A' ≤ c ∧ c ≤ 'Z' then Char.ofNat (c.toNat + 32) else c

/-- Python `str.lower()`. -/
def strLower (s : String) : String := String.mk (s.data.map lowerChar)

/-- Python `str.strip(ch)` for a single strip character: remove every copy
of `ch` from both ends. -/
def stripChar (ch : Char) (l : List Char) : List Char :=
  ((l.dropWhile (fun c => c = ch)).reverse.dropWhile (fun c => c = ch)).reverse

/-- Python `str.split(sep)` for a one-character separator: split on every
occurrence, keeping empty pieces (so the result is never the empty list). -/
def splitOnChar (sep : Char) : List Char → List (List Char)
  | [] => [[]]
  | c :: rest =>
    if c = sep then [] :: splitOnChar sep rest
    else
      match splitOnChar sep rest with
      | [] => [[c]]
      | piece :: pieces => (c :: piece) :: pieces

/-- Python `str.replace(a, b)` for one-character arguments. -/
def replaceChar (a b : Char) (l : List Char) : List Char :=
  l.map (fun c => if c = a then b else c)

/-- Split a character list at the first occurrence of the separator `sep`:
`some (before, after)` without the separator, `none` when absent. -/
def splitFirstChars (sep : List Char) : List Char → Option (List Char × List Char)
  | [] => none
  | c :: rest =>
    if sep.isPrefixOf (c :: rest) then some ([], (c :: rest).drop sep.length)
    else
      match splitFirstChars sep rest with
      | some (pre, post) => some (c :: pre, post)
      | none => none

/-- Modelled from the spec: `urllib.parse.urlparse(url).path` of the Python
standard library, for the URL shapes this program receives — the fragment is
everything from the first `#`, the query everything from the first `?`, and
for an absolute URL the path starts at the first `/` after the
`scheme://authority` prefix (empty when there is none); a string without
`://` is treated entirely as a path. -/
def urlPathChars (url : List Char) : List Char :=
  let noFrag := (splitOnChar '#' url).headD []
  let noQuery := (splitOnChar '?' noFrag).headD []
  match splitFirstChars "://".data noQuery with
  | some (_, hostAndPath) => hostAndPath.dropWhile (fun c => c ≠ '/')
  | none => noQuery

/-- `re.sub(r'_+', '_', ·)` (client.py:129): collapse every run of
underscores to a single underscore. -/
def collapseUnderscores : List Char → List Char
  | [] => []
  | [c] => [c]
  | a :: b :: rest =>
    if a = '_' ∧ b = '_' then collapseUnderscores (b :: rest)
    else a :: collapseUnderscores (b :: rest)

/-- Regex word characters `[A-Za-z0-9_]` (the ASCII reading of `\w`, and the
complement of `[^a-zA-Z0-9_]` in client.py:126). -/
def isWordChar (c : Char) : Bool := c.isAlphanum || c = '_'

/-- The endpoint-segment cleaning steps of `_generate_method_name`
(client.py:120-132): strip from the first `.`, strip from the first `?`,
replace `-` and space by `_`, replace every non-word character by `_`,
collapse runs of underscores, strip leading/trailing underscores. -/
def cleanSegment (endpoint : List Char) : List Char :=
  let e1 := (splitOnChar '.' endpoint).headD []
  let e2 := (splitOnChar '?' e1).headD []
  let e3 := replaceChar ' ' '_' (replaceChar '-' '_' e2)
  let e4 := e3.map (fun c => if isWordChar c then c else '_')
  stripChar '_' (collapseUnderscores e4)

/-- The decimal digit characters, for modelling Python integer formatting. -/
def digitChar (n : Nat) : Char :=
  match n with
  | 0 => '0' | 1 => '1' | 2 => '2' | 3 => '3' | 4 => '4'
  | 5 => '5' | 6 => '6' | 7 => '7' | 8 => '8' | 9 => '9'
  | _ => '*'

/-- Decimal digit list of a natural number, with enough fuel to cover every
digit (structural recursion so that concrete values reduce definitionally). -/
def natStrCharsAux : Nat → Nat → List Char
  | 0, _ => []
  | fuel + 1, n =>
    if n < 10 then [digitChar n]
    else natStrCharsAux fuel (n / 10) ++ [digitChar (n % 10)]

/-- Python `str(n)` / f-string rendering of a nonnegative integer. -/
def natStr (n : Nat) : String := String.mk (natStrCharsAux (n + 1) n)

/-- Python dict assignment `d[k] = v` on an insertion-ordered association
list: update the value in place when the key is present, else append the
pair at the end. -/
def pyDictInsert {α : Type} (m : List (String × α)) (k : String) (v : α) :
    List (String × α) :=
  match m with
  | [] => [(k, v)]
  | (k0, v0) :: rest =>
    if k0 = k then (k, v) :: rest else (k0, v0) :: pyDictInsert rest k v

/-- Python dict membership/lookup (`k in d`, `d.get(k)`) on an
insertion-ordered association list. -/
def pyDictGet {α : Type} (k : String) : List (String × α) → Option α
  | [] => none
  | (k0, v) :: rest => if k0 = k then some v else pyDictGet k rest

/-- JSON whitespace (the four characters `json.loads` skips). -/
def jsonSpace (c : Char) : Bool := c = ' ' || c = '\t' || c = '\n' || c = '\r'

/-- Drop leading JSON whitespace. -/
def jsonWs (l : List Char) : List Char := l.dropWhile jsonSpace

/-- Value of a decimal digit string. -/
def digitsVal (l : List Char) : Nat := l.foldl (fun a c => 10 * a + (c.toNat - 48)) 0

/-- Value of a hexadecimal digit. -/
def hexVal (c : Char) : Option Nat :=
  if c.isDigit then some (c.toNat - 48)
  else if 'a' ≤ c ∧ c ≤ 'f' then some (c.toNat - 87)
  else if 'A' ≤ c ∧ c ≤ 'F' then some (c.toNat - 55)
  else none

/-- JSON short escape sequences (`\" \\ \/ \b \f \n \r \t`). -/
def escChar (e : Char) : Option Char :=
  match e with
  | '"' => some '"'
  | '\\' => some '\\'
  | '/' => some '/'
  | 'b' => some (Char.ofNat 8)
  | 'f' => some (Char.ofNat 12)
  | 'n' => some '\n'
  | 'r' => some '\r'
  | 't' => some '\t'
  | _ => none

/-- Body of a JSON string literal (after the opening quote): characters up
to the closing quote, with escapes decoded, unescaped control characters
rejected (strict mode).  `\u` escapes yield the coded BMP scalar
(surrogate-pair combination is not modelled; no input here uses it). -/
def parseStringChars : Nat → List Char → Option (List Char × List Char)
  | 0, _ => none
  | fuel + 1, l =>
    match l with
    | [] => none
    | '"' :: rest => some ([], rest)
    | '\\' :: 'u' :: h1 :: h2 :: h3 :: h4 :: rest =>
      match hexVal h1, hexVal h2, hexVal h3, hexVal h4 with
      | some a, some b, some c, some d =>
        (parseStringChars fuel rest).map (fun p =>
          (Char.ofNat (((a * 16 + b) * 16 + c) * 16 + d) :: p.1, p.2))
      | _, _, _, _ => none
    | '\\' :: e :: rest =>
      match escChar e with
      | some c => (parseStringChars fuel rest).map (fun p => (c :: p.1, p.2))
      | none => none
    | c :: rest =>
      if c.toNat < 32 then none
      else (parseStringChars fuel rest).map (fun p => (c :: p.1, p.2))

/-- Negate a parsed JSON number (for a leading `-`). -/
def numNeg : Json → Json
  | .int n => .int (-n)
  | .float m e => .float (-m) e
  | j => j

/-- An unsigned JSON number at the head of the input, following the
`(0|[1-9]\d*)(\.\d+)?([eE][-+]?\d+)?` grammar of the `json` module: an
integer when neither fraction nor exponent is present, else a float kept as
decimal mantissa and exponent. -/
def parseUnsignedNumber (l1 : List Char) : Option (Json × List Char) :=
  match l1 with
  | [] => none
  | c :: _ =>
    if c.isDigit then
      let ip := if c = '0' then ['0'] else l1.takeWhile Char.isDigit
      let r1 := if c = '0' then l1.drop 1 else l1.dropWhile Char.isDigit
      let frOpt : Option (List Char × List Char) :=
        match r1 with
        | '.' :: r =>
          if r.takeWhile Char.isDigit = [] then none
          else some (r.takeWhile Char.isDigit, r.dropWhile Char.isDigit)
        | _ => none
      let fr := (frOpt.map Prod.fst).getD []
      let r2 := (frOpt.map Prod.snd).getD r1
      let exOpt : Option (Int × List Char) :=
        match r2 with
        | e :: '+' :: r =>
          if e = 'e' ∨ e = 'E' then
            if r.takeWhile Char.isDigit = [] then none
            else some ((digitsVal (r.takeWhile Char.isDigit) : Int),
              r.dropWhile Char.isDigit)
          else none
        | e :: '-' :: r =>
          if e = 'e' ∨ e = 'E' then
            if r.takeWhile Char.isDigit = [] then none
            else some (-((digitsVal (r.takeWhile Char.isDigit) : Nat) : Int),
              r.dropWhile Char.isDigit)
          else none
        | e :: r =>
          if e = 'e' ∨ e = 'E' then
            if r.takeWhile Char.isDigit = [] then none
            else some ((digitsVal (r.takeWhile Char.isDigit) : Int),
              r.dropWhile Char.isDigit)
          else none
        | [] => none
      match frOpt, exOpt with
      | none, none => some (.int (digitsVal ip), r1)
      | _, _ =>
        some (.float (digitsVal (ip ++ fr))
          ((exOpt.map Prod.fst).getD 0 - fr.length),
          (exOpt.map Prod.snd).getD r2)
    else none

/-- A JSON atom (string, literal or number) at the head of the input. -/
def parseAtom (l : List Char) : Option (Json × List Char) :=
  match l with
  | '"' :: rest =>
    (parseStringChars (rest.length + 1) rest).map
      (fun p => (Json.str (String.mk p.1), p.2))
  | 't' :: 'r' :: 'u' :: 'e' :: rest => some (Json.bool true, rest)
  | 'f' :: 'a' :: 'l' :: 's' :: 'e' :: rest => some (Json.bool false, rest)
  | 'n' :: 'u' :: 'l' :: 'l' :: rest => some (Json.null, rest)
  | '-' :: rest => (parseUnsignedNumber rest).map (fun p => (numNeg p.1, p.2))
  | _ => parseUnsignedNumber l

/-- Continuation stack of the JSON parsing machine: an array whose earlier
items are `acc`, or an object whose earlier fields are `acc` with the value
of `key` pending. -/
inductive Frame where
  | arr (acc : List Json) : Frame
  | obj (acc : List (String × Json)) (key : String) : Frame

/-- Modelled from the spec: Python's `json.loads` value grammar, run as a
fuel-indexed stack machine (structural recursion, so concrete parses reduce
definitionally).  `pending = none` means "expect a value"; `pending =
some v` means `v` was just produced and the stack top decides what follows.
Object fields are accumulated with `pyDictInsert`, matching `dict`
construction (duplicate keys: last value wins, first position kept).  The
non-standard `NaN`/`Infinity` extensions of the Python module are not
modelled (no input here uses them). -/
def parseMachine : Nat → Option Json → List Frame → List Char →
    Option (Json × List Char)
  | 0, _, _, _ => none
  | fuel + 1, some v, stack, l =>
    match stack with
    | [] => some (v, l)
    | .arr acc :: stk =>
      match jsonWs l with
      | ',' :: r => parseMachine fuel none (.arr (acc ++ [v]) :: stk) r
      | ']' :: r => parseMachine fuel (some (Json.arr (acc ++ [v]))) stk r
      | _ => none
    | .obj acc k :: stk =>
      match jsonWs l with
      | ',' :: r =>
        match jsonWs r with
        | '"' :: r1 =>
          match parseStringChars (r1.length + 1) r1 with
          | some (k2, r2) =>
            match jsonWs r2 with
            | ':' :: r3 =>
              parseMachine fuel none (.obj (pyDictInsert acc k v) (String.mk k2) :: stk) r3
            | _ => none
          | none => none
        | _ => none
      | '}' :: r =>
        parseMachine fuel (some (Json.obj (pyDictInsert acc k v))) stk r
      | _ => none
  | fuel + 1, none, stack, l =>
    match jsonWs l with
    | '{' :: rest =>
      match jsonWs rest with
      | '}' :: r2 => parseMachine fuel (some (Json.obj [])) stack r2
      | '"' :: r1 =>
        match parseStringChars (r1.length + 1) r1 with
        | some (k, r2) =>
          match jsonWs r2 with
          | ':' :: r3 => parseMachine fuel none (.obj [] (String.mk k) :: stack) r3
          | _ => none
        | none => none
      | _ => none
    | '[' :: rest =>
      match jsonWs rest with
      | ']' :: r2 => parseMachine fuel (some (Json.arr [])) stack r2
      | r2 => parseMachine fuel none (.arr [] :: stack) r2
    | l2 =>
      match parseAtom l2 with
      | some (v, r) => parseMachine fuel (some v) stack r
      | none => none

/-- Modelled from the spec: Python's `json.loads` — parse one JSON value
and require only whitespace after it. -/
def jsonLoads (s : String) : Option Json :=
  match parseMachine (2 * s.length + 4) none [] s.data with
  | some (v, rest) => if jsonWs rest = [] then some v else none
  | none => none

/-- One API-call record as produced by `HarReader.get_api_calls`
(reader.py:77-97): `url` and `method` copied from the request, the request
header list in recorded order, `request['postData']['text']` (empty string
when absent, matching `post_data.get('text', '')` in client.py:176-177) and
`response['content']['text']` (empty string when absent, matching
`content.get('text', '')` in models.py:140-141). -/
structure Call where
  url : String
  method : String
  requestHeaders : List (String × String)
  postDataText : String
  responseText : String
deriving Inhabited, DecidableEq

/-- `ClientGenerator._generate_method_name` (client.py:106-137), before the
final digit guard: lowercase the HTTP method, extract and strip the URL
path, clean its last `/`-delimited segment (Python's `parts[-1] if parts
else 'request'` can only take the `'request'` arm when `parts` is empty,
which `split` never produces — `getLastD` keeps the same default), with
fallback `{method}_request_{index}` when the stripped path is empty. -/
def rawMethodName (call : Call) (index : Nat) : String :=
  if stripChar '/' (urlPathChars call.url.data) ≠ [] then
    strLower call.method ++ "_" ++
      String.mk (cleanSegment
        ((splitOnChar '/' (stripChar '/' (urlPathChars call.url.data))).getLastD
          "request".data))
  else strLower call.method ++ "_request_" ++ natStr index

/-- `ClientGenerator._generate_method_name` (client.py:106-143): the raw
name, prefixed with `call_` when it is nonempty and starts with a digit
(`method_name[0].isdigit()`). -/
def generateMethodName (call : Call) (index : Nat) : String :=
  if rawMethodName call index ≠ "" &&
      ((rawMethodName call index).data.headD 'x').isDigit then
    "call_" ++ rawMethodName call index
  else rawMethodName call index

/-- Python keyword denylist of `_sanitize_field_name` (models.py:93). -/
def pyKeywords : List String :=
  ["class", "def", "return", "if", "else", "for", "while", "import", "from", "as", "is"]

/-- `ModelGenerator._sanitize_field_name` (models.py:83-97): `-`, `.` and
space to `_`; a leading digit gets an underscore prefix; a (lowercased)
Python keyword gets an underscore suffix. -/
def sanitizeFieldName (name : String) : String :=
  let s1 := replaceChar ' ' '_' (replaceChar '.' '_' (replaceChar '-' '_' name.data))
  let s2 := if s1 ≠ [] ∧ (s1.headD 'x').isDigit then '_' :: s1 else s1
  if pyKeywords.contains (strLower (String.mk s2)) then String.mk (s2 ++ ['_'])
  else String.mk s2

/-- Python `"\n".join(lines)` (models.py:59,67; client.py:103). -/
def strJoinNl : List String → String
  | [] => ""
  | [x] => x
  | x :: y :: rest => x ++ "\n" ++ strJoinNl (y :: rest)

/-- The line list built by `_generate_dict_model` (models.py:45-67): fixed
header, `    pass` for an empty object, else one indented line per field in
insertion order. -/
def dictModelLines (fields : List (String × Json)) (modelName : String) : List String :=
  ["from typing import Optional, List, Dict, Any",
   "from dataclasses import dataclass",
   "", "",
   "@dataclass",
   "class " ++ modelName ++ ":",
   "    \"\"\"Model generated from HAR response data.\"\"\""] ++
  (if fields.isEmpty then ["    pass"]
   else fields.map (fun p => "    " ++ sanitizeFieldName p.1 ++ ": " ++ inferType p.2 p.1))

/-- `ModelGenerator._generate_dict_model` (models.py:45-67). -/
def generateDictModel (fields : List (String × Json)) (modelName : String) : String :=
  strJoinNl (dictModelLines fields modelName)

/-- `ModelGenerator._generate_list_model` (models.py:69-81): sample the
first item; a dict yields an `{name}Item` record plus a list comment, a
primitive yields a comment only. -/
def generateListModel (items : List Json) (modelName : String) : String :=
  match items with
  | [] => "# " ++ modelName ++ " is an empty list"
  | first :: _ =>
    match first with
    | .obj fields =>
      generateDictModel fields (modelName ++ "Item") ++
        "\n\n# " ++ modelName ++ " = List[" ++ modelName ++ "Item]"
    | _ => "# " ++ modelName ++ " = List[" ++ inferType first "item" ++ "]"

/-- `ModelGenerator.analyze_json_structure` (models.py:27-43): dicts to a
record, non-empty lists to the list model, everything else (including the
empty list) to a `# Simple type: ...` comment. -/
def analyzeJsonStructure (data : Json) (modelName : String) : String :=
  match data with
  | .obj fields => generateDictModel fields modelName
  | .arr (x :: xs) => generateListModel (x :: xs) modelName
  | d => "# Simple type: " ++ pyTypeName d

/-- Python `str.upper()` on a character, restricted to ASCII. -/
def upperChar (c : Char) : Char :=
  if 'a' ≤ c ∧ c ≤ 'z' then Char.ofNat (c.toNat - 32) else c

/-- Python `str.capitalize()` (ASCII): first character uppercased, the rest
lowercased. -/
def capitalize (w : List Char) : List Char :=
  match w with
  | [] => []
  | c :: rest => upperChar c :: rest.map lowerChar

/-- `ModelGenerator._url_to_model_name` (models.py:159-183): last non-empty
path segment (fallback `Response{index}`), cut at the first `?` and `.`,
`_`/`-` to spaces, split on whitespace dropping empties (the only
whitespace present is spaces), each word capitalized and concatenated;
fallback again when empty or digit-leading; suffix `Model`. -/
def urlToModelName (url : String) (index : Nat) : String :=
  let path := stripChar '/' (urlPathChars url.data)
  let modelName :=
    if path ≠ [] then
      let namePart := (splitOnChar '/' path).getLastD ("Response" ++ natStr index).data
      let np := (splitOnChar '.' ((splitOnChar '?' namePart).headD [])).headD []
      let words := (splitOnChar ' ' (replaceChar '-' ' ' (replaceChar '_' ' ' np))).filter
        (· ≠ [])
      let m := (words.map capitalize).flatten
      if m = [] ∨ (m.headD 'x').isDigit then ("Response" ++ natStr index).data else m
    else ("Response" ++ natStr index).data
  String.mk modelName ++ "Model"

/-- `ModelGenerator.generate_models_from_responses` (models.py:123-157):
iterate calls in order; when the response content text is nonempty and
parses as JSON, synthesize a model and assign it into the URL-keyed dict
(Python dict assignment = `pyDictInsert`); on empty text or parse failure
(`json.JSONDecodeError`) the call is skipped. -/
def generateModelsFromResponses (apiCalls : List Call) : List (String × String) :=
  apiCalls.enum.foldl
    (fun models p =>
      if p.2.responseText ≠ "" then
        match jsonLoads p.2.responseText with
        | some data =>
          pyDictInsert models p.2.url
            (analyzeJsonStructure data (urlToModelName p.2.url p.1))
        | none => models
      else models)
    []

/-- The per-call contribution of `generate_models_from_responses`: the
synthesized model text when the response text is nonempty and parses as
JSON, nothing otherwise. -/
def callModel (index : Nat) (call : Call) : Option String :=
  if call.responseText ≠ "" then
    (jsonLoads call.responseText).map
      (fun data => analyzeJsonStructure data (urlToModelName call.url index))
  else none

/-- The model of the last enumerated call carrying the given URL whose body
parses as JSON — the specification's last-write-wins table entry. -/
def lastModelFor (url : String) : List (Nat × Call) → Option String
  | [] => none
  | p :: rest =>
    match lastModelFor url rest with
    | some v => some v
    | none => if p.2.url = url then callModel p.1 p.2 else none

/-- The transport-managed header names excluded in client.py:165. -/
def excludedHeaderNames : List String := ["host", "content-length", "connection"]

/-- The header-merging loop body of `_generate_method` (client.py:158-168)
over one call's header list: skip transport-managed names
(case-insensitive), keep the first-seen value per exact header name
(dict assignment appends new keys at the end). -/
def addCallHeaders (acc : List (String × String)) (hs : List (String × String)) :
    List (String × String) :=
  hs.foldl
    (fun acc2 h =>
      if ¬ excludedHeaderNames.contains (strLower h.1) then
        if pyDictGet h.1 acc2 = none then acc2 ++ [h] else acc2
      else acc2)
    acc

/-- The merged default headers of a method group (client.py:158-168). -/
def combinedHeaders (allCalls : List Call) : List (String × String) :=
  allCalls.foldl (fun acc c => addCallHeaders acc c.requestHeaders) []

/-- The request-body branch taken by `_generate_method` (client.py:211-243):
no body, a structured JSON merge point, or an opaque string payload
(`data = ...`) when the body text does not parse as JSON. -/
inductive BodyKind where
  | noBody : BodyKind
  | jsonBody (data : Json) : BodyKind
  | opaqueBody (raw : String) : BodyKind

/-- The data of one synthesized client method as computed by
`_generate_method` (client.py:145-247) from the representative call and its
group: emitted name, merged default headers, body branch, and the optional
return-type annotation.  The textual rendering and the query-string
extraction (`parse_qs`) are not modelled — no claim mentions them. -/
structure MethodDef where
  name : String
  headers : List (String × String)
  body : BodyKind
  returnModel : Option String

/-- `ClientGenerator._generate_method` (client.py:145-247), at the level of
`MethodDef`. -/
def generateMethod (call : Call) (methodName : String) (allCalls : List Call)
    (modelName : Option String) : MethodDef :=
  ⟨methodName, combinedHeaders allCalls,
    (if call.postDataText = "" then .noBody
     else
       match jsonLoads call.postDataText with
       | some j => .jsonBody j
       | none => .opaqueBody call.postDataText),
    modelName⟩

/-- Append a call to its derived name's group, keeping first-seen group
order (the `endpoint_calls` dict-of-lists of client.py:84-90). -/
def addToGroup (groups : List (String × List Call)) (name : String) (call : Call) :
    List (String × List Call) :=
  match groups with
  | [] => [(name, [call])]
  | (n, cs) :: rest =>
    if n = name then (n, cs ++ [call]) :: rest
    else (n, cs) :: addToGroup rest name call

/-- The grouping pass of `generate_client` (client.py:84-90). -/
def groupCalls (calls : List Call) : List (String × List Call) :=
  calls.enum.foldl (fun gs p => addToGroup gs (generateMethodName p.2 p.1) p.2) []

/-- One attempt of `re.search(r'class\s+(\w+):', ·)` at the head of the
input (client.py:261): literal `class`, one or more whitespace characters,
one or more word characters (the captured group), then `:`.  Whitespace and
word characters are disjoint and `:` is neither, so this greedy reading is
exactly the regex (ASCII model of `\s`/`\w`). -/
def classMatchAt (l : List Char) : Option (List Char) :=
  if "class".data.isPrefixOf l then
    if (l.drop 5).takeWhile Char.isWhitespace ≠ [] ∧
        ((l.drop 5).dropWhile Char.isWhitespace).takeWhile isWordChar ≠ [] ∧
        (((l.drop 5).dropWhile Char.isWhitespace).dropWhile isWordChar).head? =
          some ':' then
      some (((l.drop 5).dropWhile Char.isWhitespace).takeWhile isWordChar)
    else none
  else none

/-- The position scan of `re.search`: leftmost match wins. -/
def findClassAux : List Char → Option (List Char)
  | [] => none
  | c :: rest =>
    match classMatchAt (c :: rest) with
    | some w => some w
    | none => findClassAux rest

/-- The captured group of the first `class\s+(\w+):` match, if any
(client.py:259-263). -/
def findClassName (s : String) : Option String :=
  (findClassAux s.data).map String.mk

/-- `ClientGenerator._get_model_name_for_call` (client.py:249-265): nothing
without a model generator; else look the URL up in the generator's model
table and extract the first declared class name from the stored text. -/
def getModelNameForCall (modelGen : Option (List (String × String))) (call : Call) :
    Option String :=
  match modelGen with
  | none => none
  | some models =>
    match pyDictGet call.url models with
    | some code => findClassName code
    | none => none

/-- The per-group synthesis loop of `generate_client` (client.py:92-101):
one `MethodDef` per group, from the group's first call, with a return-type
annotation only when `use_models` is set and a model generator exists. -/
def clientMethods (calls : List Call) (useModels : Bool)
    (modelGen : Option (List (String × String))) : List MethodDef :=
  (groupCalls calls).map (fun g =>
    generateMethod (g.2.headD default) g.1 g.2
      (if useModels && modelGen.isSome then
        getModelNameForCall modelGen (g.2.headD default)
      else none))

/-- `ClientGenerator.generate_client` (client.py:31-104): use the explicit
call list when given, else the reader's calls, else raise the
`ValueError` configuration error (client.py:42-44). -/
def generateClient (apiCalls : Option (List Call)) (harReader : Option (List Call))
    (useModels : Bool) (modelGen : Option (List (String × String))) :
    Except String (List MethodDef) :=
  match apiCalls with
  | some cs => .ok (clientMethods cs useModels modelGen)
  | none =>
    match harReader with
    | some rc => .ok (clientMethods rc useModels modelGen)
    | none => .error "No API calls or HarReader provided"

/-- Whether client generation surfaced the configuration error. -/
def isConfigError (e : Except String (List MethodDef)) : Bool :=
  match e with
  | .error _ => true
  | .ok _ => false

/-- The GET call of the spec's §8 round-trip scenario (test_integration.py:
19-38): `GET https://api.test.com/users` answered with a JSON array of two
user objects. -/
def scenarioGetCall : Call :=
  ⟨"https://api.test.com/users", "GET", [("Accept", "application/json")], "",
   "[\x7b\"id\": 1, \"name\": \"John\", \"email\": \"john@test.com\"\x7d, \x7b\"id\": 2, \"name\": \"Jane\", \"email\": \"jane@test.com\"\x7d]"⟩

/-- The POST call of the §8 round-trip scenario (test_integration.py:39-57):
`POST https://api.test.com/users` with a JSON object body, answered with a
JSON object. -/
def scenarioPostCall : Call :=
  ⟨"https://api.test.com/users", "POST", [("Content-Type", "application/json")],
   "\x7b\"name\": \"Alice\", \"email\": \"alice@test.com\"\x7d",
   "\x7b\"id\": 3, \"name\": \"Alice\", \"email\": \"alice@test.com\"\x7d"⟩

/-- A captured call whose response body is present but not valid JSON and
whose request body is a non-JSON payload. -/
def badCall : Call := ⟨"https://api.test.com/users", "GET", [], "raw body", "not json"⟩

end Harmodel

namespace Harmodel

/-- C1: The type-inference function follows the §4.2 priority rules:
null ↦ `Optional[Any]`; booleans ↦ `bool` (never `int`, since the boolean
branch precedes the integer branch); integers ↦ `int`; floats ↦ `float`;
strings ↦ `str`; an empty array ↦ `List[Any]`; a non-empty array ↦
`List[T]` with `T` inferred from the first element only (the tail never
influences the result); an object ↦ `Dict[str, Any]`. -/
theorem infer_type_priority_rules :
    (∀ f, inferType .null f = "Optional[Any]")
    ∧ (∀ b f, inferType (.bool b) f = "bool")
    ∧ (∀ b f, inferType (.bool b) f ≠ "int")
    ∧ (∀ n f, inferType (.int n) f = "int")
    ∧ (∀ m e f, inferType (.float m e) f = "float")
    ∧ (∀ s f, inferType (.str s) f = "str")
    ∧ (∀ f, inferType (.arr []) f = "List[Any]")
    ∧ (∀ x xs f, inferType (.arr (x :: xs)) f = "List[" ++ inferType x f ++ "]")
    ∧ (∀ x xs ys f, inferType (.arr (x :: xs)) f = inferType (.arr (x :: ys)) f)
    ∧ (∀ fs f, inferType (.obj fs) f = "Dict[str, Any]") := by
  refine ⟨fun f => rfl, fun b f => rfl, fun b f => by simp [inferType],
    fun n f => rfl, fun m e f => rfl, fun s f => rfl, fun f => rfl,
    fun x xs f => rfl, fun x xs ys f => rfl, fun fs f => rfl⟩

/-- Collapsing underscore runs introduces no new character. -/
theorem mem_collapseUnderscores {c : Char} :
    ∀ {l : List Char}, c ∈ collapseUnderscores l → c ∈ l := by
  intro l
  induction l with
  | nil => simp [collapseUnderscores]
  | cons a tl ih =>
    cases tl with
    | nil => simp [collapseUnderscores]
    | cons b rest =>
      simp only [collapseUnderscores]
      split
      · intro h
        exact List.mem_cons_of_mem a (ih h)
      · intro h
        rcases List.mem_cons.1 h with h | h
        · exact h ▸ List.mem_cons_self a _
        · exact List.mem_cons_of_mem a (ih h)

/-- Stripping a character from both ends introduces no new character. -/
theorem mem_stripChar {ch c : Char} {l : List Char} (h : c ∈ stripChar ch l) :
    c ∈ l := by
  unfold stripChar at h
  rw [List.mem_reverse] at h
  have h2 := (List.dropWhile_sublist _).mem h
  rw [List.mem_reverse] at h2
  exact (List.dropWhile_sublist _).mem h2

/-- Every character of a cleaned path segment is a word character: the
substitution step maps everything else to `_` and the later steps only
remove characters. -/
theorem cleanSegment_words {e : List Char} :
    ∀ c ∈ cleanSegment e, isWordChar c = true := by
  intro c hc
  unfold cleanSegment at hc
  have h2 := mem_collapseUnderscores (mem_stripChar hc)
  rcases List.mem_map.1 h2 with ⟨a, _, rfl⟩
  by_cases hw : isWordChar a = true
  · rw [if_pos hw]; exact hw
  · rw [if_neg hw]; decide

/-- Rendered naturals consist of decimal digits. -/
theorem natStrCharsAux_digits :
    ∀ (fuel n : Nat), ∀ c ∈ natStrCharsAux fuel n, c.isDigit = true := by
  intro fuel
  induction fuel with
  | zero => simp [natStrCharsAux]
  | succ f ih =>
    intro n c hc
    have hlt : ∀ m, m < 10 → (digitChar m).isDigit = true := by decide
    simp only [natStrCharsAux] at hc
    split at hc
    · rcases List.mem_singleton.1 hc with rfl
      exact hlt n (by omega)
    · rcases List.mem_append.1 hc with h | h
      · exact ih _ c h
      · rcases List.mem_singleton.1 h with rfl
        exact hlt _ (Nat.mod_lt _ (by omega))

/-- An ASCII letter is not a decimal digit. -/
theorem alpha_not_digit (c : Char) (h : c.isAlpha = true) : c.isDigit = false := by
  revert h
  unfold Char.isAlpha Char.isUpper Char.isLower Char.isDigit
  simp only [Bool.or_eq_true, Bool.and_eq_true, decide_eq_true_eq, Bool.and_eq_false_iff,
    decide_eq_false_iff_not]
  intro h
  right
  intro hd
  have h9 : c.val.toNat ≤ 57 := hd
  rcases h with ⟨h1, -⟩ | ⟨h1, -⟩
  · have h65 : 65 ≤ c.val.toNat := h1
    omega
  · have h97 : 97 ≤ c.val.toNat := h1
    omega

/-- Letters are alphanumeric. -/
theorem alpha_alphanum (c : Char) (h : c.isAlpha = true) : c.isAlphanum = true := by
  simp [Char.isAlphanum, h]

/-- Every character of the raw method name is alphanumeric or `_`, provided
the lowercased HTTP method consists of letters. -/
theorem rawMethodName_chars (call : Call) (index : Nat)
    (hmeth : ∀ c ∈ (strLower call.method).data, c.isAlpha = true) :
    ∀ c ∈ (rawMethodName call index).data, c.isAlphanum = true ∨ c = '_' := by
  intro c hc
  unfold rawMethodName at hc
  split at hc
  · simp only [String.data_append] at hc
    rcases List.mem_append.1 hc with hc | hc
    · rcases List.mem_append.1 hc with hc | hc
      · exact Or.inl (alpha_alphanum c (hmeth c hc))
      · right
        simpa using hc
    · have hw := cleanSegment_words
        (e := ((splitOnChar '/' (stripChar '/' (urlPathChars call.url.data))).getLastD
          "request".data)) c (by simpa using hc)
      simpa [isWordChar, Bool.or_eq_true, decide_eq_true_eq] using hw
  · simp only [String.data_append] at hc
    rcases List.mem_append.1 hc with hc | hc
    · rcases List.mem_append.1 hc with hc | hc
      · exact Or.inl (alpha_alphanum c (hmeth c hc))
      · have h9 : ∀ x ∈ ("_request_" : String).data, x.isAlphanum = true ∨ x = '_' := by
          decide
        exact h9 c hc
    · have hd := natStrCharsAux_digits (index + 1) index c (by simpa [natStr] using hc)
      exact Or.inl (by simp [Char.isAlphanum, hd])

/-- The raw method name never starts with a digit when the lowercased HTTP
method consists of letters (it then starts with a letter or with `_`). -/
theorem rawMethodName_head (call : Call) (index : Nat)
    (hmeth : ∀ c ∈ (strLower call.method).data, c.isAlpha = true) :
    (((rawMethodName call index).data.headD 'x')).isDigit = false := by
  unfold rawMethodName
  split <;>
  · cases hml : (strLower call.method).data with
    | nil => simp [String.data_append, hml]
    | cons c0 tl =>
      have := alpha_not_digit c0 (hmeth c0 (by rw [hml]; exact List.mem_cons_self _ _))
      simp [String.data_append, hml, this]

/-- The general part of claim C2, over the embedded
`_generate_method_name`. -/
theorem method_name_main (call : Call) (index : Nat)
    (hmeth : ∀ c ∈ (strLower call.method).data, c.isAlpha = true) :
    (∀ c ∈ (generateMethodName call index).data, c.isAlphanum = true ∨ c = '_')
    ∧ ((generateMethodName call index).data.headD 'x').isDigit = false
    ∧ (stripChar '/' (urlPathChars call.url.data) ≠ [] →
        generateMethodName call index =
          strLower call.method ++ "_" ++ String.mk (cleanSegment
            ((splitOnChar '/' (stripChar '/' (urlPathChars call.url.data))).getLastD
              "request".data)))
    ∧ (stripChar '/' (urlPathChars call.url.data) = [] →
        generateMethodName call index =
          strLower call.method ++ "_request_" ++ natStr index) := by
  have hraw : generateMethodName call index = rawMethodName call index := by
    unfold generateMethodName
    rw [rawMethodName_head call index hmeth]
    simp
  rw [hraw]
  refine ⟨rawMethodName_chars call index hmeth, rawMethodName_head call index hmeth,
    ?_, ?_⟩
  · intro hne
    unfold rawMethodName
    rw [if_pos hne]
  · intro heq
    unfold rawMethodName
    rw [if_neg (by simp [heq])]

/-- C2: The derived endpoint method name is the lowercased HTTP method, an
underscore, and the cleaned last path segment (cleaning: last `/`-delimited
component of the parsed path, cut at the first `.` and `?`, spaces and
hyphens to underscores, every non-word character to underscore, underscore
runs collapsed, leading/trailing underscores stripped); when the stripped
path is empty the name is `{method}_request_{index}`.  The result contains
only letters, digits and underscores (for an alphabetic HTTP method) and
never starts with a digit.  In particular, for
`https://api.example.com/user@domain.com#section` with method `POST` the
derived name is `post_user_domain`: no `@`, `.` or `#` and no doubled
underscore. -/
theorem method_name_spec :
    (∀ (call : Call) (index : Nat),
      (∀ c ∈ (strLower call.method).data, c.isAlpha = true) →
      (∀ c ∈ (generateMethodName call index).data, c.isAlphanum = true ∨ c = '_')
      ∧ ((generateMethodName call index).data.headD 'x').isDigit = false
      ∧ (stripChar '/' (urlPathChars call.url.data) ≠ [] →
          generateMethodName call index =
            strLower call.method ++ "_" ++ String.mk (cleanSegment
              ((splitOnChar '/' (stripChar '/' (urlPathChars call.url.data))).getLastD
                "request".data)))
      ∧ (stripChar '/' (urlPathChars call.url.data) = [] →
          generateMethodName call index =
            strLower call.method ++ "_request_" ++ natStr index))
    ∧ generateMethodName
        ⟨"https://api.example.com/user@domain.com#section", "POST", [], "", ""⟩ 0
        = "post_user_domain"
    ∧ (∀ c ∈ ("post_user_domain" : String).data, c ≠ '@' ∧ c ≠ '.' ∧ c ≠ '#')
    ∧ ¬ List.IsInfix "__".data ("post_user_domain" : String).data :=
  ⟨method_name_main, by rfl, by decide, by decide⟩

/-- Witness for C2: the general part applied to a concrete captured call. -/
theorem method_name_spec_witness :
    (∀ c ∈ (strLower "GET").data, c.isAlpha = true)
    ∧ (∀ c ∈ (generateMethodName ⟨"https://api.test.com/users", "GET", [], "", ""⟩ 0).data,
        c.isAlphanum = true ∨ c = '_') :=
  ⟨by decide,
    (method_name_spec.1 ⟨"https://api.test.com/users", "GET", [], "", ""⟩ 0 (by decide)).1⟩

end Harmodel

namespace Harmodel

/-- C8: Client generation raises the configuration error exactly when it is
invoked with no explicit call list and no capture reader; with an explicit
list (even an empty one) or a reader it returns generated output and no
error. -/
theorem client_config_error_iff :
    ∀ (apiCalls : Option (List Call)) (harReader : Option (List Call))
      (useModels : Bool) (modelGen : Option (List (String × String))),
      isConfigError (generateClient apiCalls harReader useModels modelGen) = true
        ↔ (apiCalls = none ∧ harReader = none) := by
  intro a r u g
  cases a <;> cases r <;> simp [generateClient, isConfigError]

/-- Looking up a key after a Python dict assignment: the assigned key reads
back the new value, every other key is untouched. -/
theorem pyDictGet_insert {α : Type} (m : List (String × α)) (k k2 : String) (v : α) :
    pyDictGet k2 (pyDictInsert m k v) = if k = k2 then some v else pyDictGet k2 m := by
  induction m with
  | nil => simp [pyDictGet, pyDictInsert]
  | cons p rest ih =>
    obtain ⟨k0, v0⟩ := p
    by_cases h : k0 = k
    · subst h
      simp only [pyDictInsert, if_pos rfl]
      by_cases h2 : k0 = k2
      · subst h2; simp [pyDictGet]
      · simp [pyDictGet, h2, if_neg h2]
    · simp only [pyDictInsert, if_neg h]
      by_cases h2 : k0 = k2
      · subst h2
        have : ¬ k0 = k := h
        simp [pyDictGet, if_neg (fun hh : k = k0 => this hh.symm)]
      · simp [pyDictGet, h2, ih]

/-- The model-table fold: the lookup of a URL equals the last successful
contribution among the processed calls, falling back to the accumulator. -/
theorem models_foldl_lookup (url : String) :
    ∀ (l : List (Nat × Call)) (acc : List (String × String)),
      pyDictGet url
        (l.foldl
          (fun models p =>
            if p.2.responseText ≠ "" then
              match jsonLoads p.2.responseText with
              | some data =>
                pyDictInsert models p.2.url
                  (analyzeJsonStructure data (urlToModelName p.2.url p.1))
              | none => models
            else models)
          acc) =
        (match lastModelFor url l with
         | some v => some v
         | none => pyDictGet url acc) := by
  intro l
  induction l with
  | nil => intro acc; simp [lastModelFor]
  | cons p rest ih =>
    intro acc
    rw [List.foldl_cons, ih]
    simp only [lastModelFor]
    cases hl : lastModelFor url rest with
    | some v => simp
    | none =>
      simp only []
      by_cases hu : p.2.url = url
      · by_cases ht : p.2.responseText ≠ ""
        · cases hj : jsonLoads p.2.responseText with
          | some d =>
            simp only [if_pos ht, hj, callModel, ht, if_pos ht, Option.map_some]
            rw [pyDictGet_insert, if_pos hu]
            simp [hu]
          | none =>
            simp [ht, hj, callModel, hu]
        · simp only [ne_eq, not_not] at ht
          simp [callModel, ht, hu]
      · by_cases ht : p.2.responseText ≠ ""
        · cases hj : jsonLoads p.2.responseText with
          | some d =>
            simp only [if_pos ht, hj]
            rw [pyDictGet_insert, if_neg hu]
            simp [hu]
          | none => simp [ht, hj, hu]
        · simp only [ne_eq, not_not] at ht
          simp [ht, hu]

/-- C3: The model table is keyed by source URL with last-write-wins per URL:
looking a URL up returns the model of the last processed call carrying that
URL whose body parses as JSON, and nothing else.  In the §8 round-trip
scenario (a GET and a POST to `https://api.test.com/users`), the table is a
single entry keyed by the shared URL holding the POST response's model with
fields `id: int`, `name: str`, `email: str`. -/
theorem models_keyed_by_url_last_wins :
    (∀ (apiCalls : List Call) (url : String),
      pyDictGet url (generateModelsFromResponses apiCalls) =
        lastModelFor url apiCalls.enum)
    ∧ generateModelsFromResponses [scenarioGetCall, scenarioPostCall] =
        [("https://api.test.com/users",
          "from typing import Optional, List, Dict, Any\nfrom dataclasses import dataclass\n\n\n@dataclass\nclass UsersModel:\n    \"\"\"Model generated from HAR response data.\"\"\"\n    id: int\n    name: str\n    email: str")] := by
  constructor
  · intro apiCalls url
    unfold generateModelsFromResponses
    rw [models_foldl_lookup]
    cases lastModelFor url apiCalls.enum <;> simp [pyDictGet]
  · set_option maxRecDepth 10000 in
    rfl

/-- Dict lookup distributes over list append: the left part wins. -/
theorem pyDictGet_append {α : Type} (k : String) (l1 l2 : List (String × α)) :
    pyDictGet k (l1 ++ l2) =
      match pyDictGet k l1 with | some v => some v | none => pyDictGet k l2 := by
  induction l1 with
  | nil => simp [pyDictGet]
  | cons p rest ih =>
    obtain ⟨k0, v0⟩ := p
    by_cases h : k0 = k
    · subst h; simp [pyDictGet]
    · simp [pyDictGet, h, ih]

/-- A successful dict lookup names a pair of the list. -/
theorem pyDictGet_mem {α : Type} {k : String} {v : α} :
    ∀ {l : List (String × α)}, pyDictGet k l = some v → (k, v) ∈ l := by
  intro l
  induction l with
  | nil => intro h; simp [pyDictGet] at h
  | cons p rest ih =>
    obtain ⟨k0, v0⟩ := p
    intro h
    by_cases hk : k0 = k
    · subst hk
      simp [pyDictGet] at h
      subst h
      exact List.mem_cons_self _ _
    · simp [pyDictGet, hk] at h
      exact List.mem_cons_of_mem _ (ih h)

/-- The header-merge step keeps the no-transport-header invariant. -/
theorem addCallHeaders_members :
    ∀ (hs acc : List (String × String)),
      (∀ p ∈ acc, excludedHeaderNames.contains (strLower p.1) = false) →
      ∀ p ∈ addCallHeaders acc hs, excludedHeaderNames.contains (strLower p.1) = false := by
  intro hs
  induction hs with
  | nil => intro acc h; exact h
  | cons h0 hs ih =>
    intro acc hacc
    simp only [addCallHeaders, List.foldl_cons]
    have step_ok : ∀ p ∈ (if ¬ excludedHeaderNames.contains (strLower h0.1) then
        (if pyDictGet h0.1 acc = none then acc ++ [h0] else acc) else acc),
        excludedHeaderNames.contains (strLower p.1) = false := by
      split
      · rename_i hne
        split
        · intro p hp
          rcases List.mem_append.1 hp with hp | hp
          · exact hacc p hp
          · rcases List.mem_singleton.1 hp with rfl
            exact Bool.not_eq_true _ ▸ (by simpa using hne)
        · exact hacc
      · exact hacc
    have := ih _ step_ok
    simpa [addCallHeaders] using this

/-- The per-call fold of the header merge keeps the invariant. -/
theorem combinedHeaders_foldl_members :
    ∀ (calls : List Call) (acc : List (String × String)),
      (∀ p ∈ acc, excludedHeaderNames.contains (strLower p.1) = false) →
      ∀ p ∈ calls.foldl (fun acc c => addCallHeaders acc c.requestHeaders) acc,
        excludedHeaderNames.contains (strLower p.1) = false := by
  intro calls
  induction calls with
  | nil => intro acc h; exact h
  | cons c cs ih =>
    intro acc hacc
    rw [List.foldl_cons]
    exact ih _ (addCallHeaders_members c.requestHeaders acc hacc)

/-- C4: A header whose name case-insensitively equals `host`,
`content-length` or `connection` never appears among the merged default
headers of a synthesized method, no matter how many calls in the group carry
it: no merged pair has an excluded name, and looking such a name up finds
nothing. -/
theorem transport_headers_excluded :
    (∀ (calls : List Call), ∀ p ∈ combinedHeaders calls,
      excludedHeaderNames.contains (strLower p.1) = false)
    ∧ (∀ (calls : List Call) (name : String),
        excludedHeaderNames.contains (strLower name) = true →
        pyDictGet name (combinedHeaders calls) = none) := by
  have h1 : ∀ (calls : List Call), ∀ p ∈ combinedHeaders calls,
      excludedHeaderNames.contains (strLower p.1) = false := by
    intro calls
    exact combinedHeaders_foldl_members calls [] (by simp)
  refine ⟨h1, fun calls name hex => ?_⟩
  cases hv : pyDictGet name (combinedHeaders calls) with
  | none => rfl
  | some v =>
    have hm := pyDictGet_mem hv
    have := h1 calls (name, v) hm
    rw [hex] at this
    cases this

/-- Witness for C4: a call carrying an upper-cased `HOST` header, absent
from the merged defaults. -/
theorem transport_headers_excluded_witness :
    excludedHeaderNames.contains (strLower "HOST") = true
    ∧ pyDictGet "HOST"
        (combinedHeaders [⟨"u", "GET", [("HOST", "api.test.com")], "", ""⟩]) = none :=
  ⟨by decide,
    transport_headers_excluded.2 [⟨"u", "GET", [("HOST", "api.test.com")], "", ""⟩]
      "HOST" (by decide)⟩

end Harmodel

namespace Harmodel

/-- One call's headers merged into an accumulator: lookup of a
non-transport name keeps the accumulator's value, else takes the first
occurrence in the call's header list. -/
theorem addCallHeaders_lookup {name : String}
    (hex : excludedHeaderNames.contains (strLower name) = false) :
    ∀ (hs acc : List (String × String)),
      pyDictGet name (addCallHeaders acc hs) =
        (match pyDictGet name acc with
         | some v => some v
         | none => (hs.find? (fun h => h.1 = name)).map Prod.snd) := by
  intro hs
  induction hs with
  | nil =>
    intro acc
    cases hacc : pyDictGet name acc <;> simp [addCallHeaders, hacc]
  | cons h0 hs ih =>
    intro acc
    simp only [addCallHeaders, List.foldl_cons] at ih ⊢
    rw [ih]
    by_cases hn : h0.1 = name
    · rw [← hn] at hex
      rw [if_pos (by rw [hex]; simp)]
      cases hacc : pyDictGet h0.1 acc with
      | none =>
        have hacc2 : pyDictGet name acc = none := hn ▸ hacc
        simp [hacc, hacc2, pyDictGet_append, pyDictGet, List.find?, hn]
      | some v =>
        have hacc2 : pyDictGet name acc = some v := hn ▸ hacc
        simp [hacc, hacc2, List.find?, hn]
    · have hd : (decide (h0.1 = name)) = false := by simp [hn]
      by_cases he : excludedHeaderNames.contains (strLower h0.1) = true
      · rw [if_neg (by rw [he]; simp)]
        cases hacc : pyDictGet name acc <;> simp [hacc, List.find?, hd]
      · rw [if_pos (by rw [Bool.of_not_eq_true he]; simp)]
        cases hacc0 : pyDictGet h0.1 acc with
        | none =>
          have happ : pyDictGet name (acc ++ [h0]) = pyDictGet name acc := by
            rw [pyDictGet_append]
            cases h2 : pyDictGet name acc <;> simp [h2, pyDictGet, hn]
          rw [show (if (none : Option String) = none then acc ++ [h0] else acc)
              = acc ++ [h0] from if_pos rfl, happ]
          cases hacc : pyDictGet name acc <;> simp [hacc, List.find?, hd]
        | some v0 =>
          rw [show (if (some v0 : Option String) = none then acc ++ [h0] else acc)
              = acc from if_neg (by simp)]
          cases hacc : pyDictGet name acc <;> simp [hacc, List.find?, hd]

/-- The group-level header fold, related to the flattened header stream. -/
theorem combinedHeaders_foldl_lookup {name : String}
    (hex : excludedHeaderNames.contains (strLower name) = false) :
    ∀ (calls : List Call) (acc : List (String × String)),
      pyDictGet name (calls.foldl (fun a c => addCallHeaders a c.requestHeaders) acc) =
        (match pyDictGet name acc with
         | some v => some v
         | none =>
           ((calls.map Call.requestHeaders).flatten.find? (fun h => h.1 = name)).map
             Prod.snd) := by
  intro calls
  induction calls with
  | nil =>
    intro acc
    cases hacc : pyDictGet name acc <;> simp [hacc]
  | cons c cs ih =>
    intro acc
    rw [List.foldl_cons, ih, addCallHeaders_lookup hex]
    cases hacc : pyDictGet name acc with
    | some v => simp
    | none =>
      cases hf : c.requestHeaders.find? (fun h => h.1 = name) with
      | some p =>
        simp only [Option.map_some]
        rw [List.map_cons, List.flatten_cons]
        rw [List.find?_append, hf]
        simp
      | none =>
        simp only [Option.map_none]
        rw [List.map_cons, List.flatten_cons]
        rw [List.find?_append, hf]
        simp

/-- C9 counterexample: the claim as stated fails on a group whose single
call carries a `Host` header — the header is in the union of the group's
headers, yet the merged defaults are empty, so the kept value is not the
first-seen value. -/
theorem header_union_counterexample :
    ("Host", "api.test.com") ∈
      (⟨"u", "GET", [("Host", "api.test.com")], "", ""⟩ : Call).requestHeaders
    ∧ combinedHeaders [⟨"u", "GET", [("Host", "api.test.com")], "", ""⟩] = []
    ∧ pyDictGet "Host"
        (combinedHeaders [⟨"u", "GET", [("Host", "api.test.com")], "", ""⟩]) ≠
          some "api.test.com" := by
  refine ⟨by decide, by rfl, by decide⟩

/-- C9 (amended): For every endpoint group and every header name that is
not transport-managed (not case-insensitively `host`, `content-length` or
`connection`), the merged default headers are the union of the group's
headers restricted to such names, and the value kept per name is the
first-seen value in original call order: lookup equals the first matching
entry of the concatenated header stream. -/
theorem header_first_seen_merge :
    ∀ (calls : List Call) (name : String),
      excludedHeaderNames.contains (strLower name) = false →
      pyDictGet name (combinedHeaders calls) =
        ((calls.map Call.requestHeaders).flatten.find? (fun h => h.1 = name)).map
          Prod.snd := by
  intro calls name hex
  unfold combinedHeaders
  rw [combinedHeaders_foldl_lookup hex]
  simp [pyDictGet]

/-- Witness for the amended C9: two calls both carrying `Accept`; the
merged default keeps the first call's value. -/
theorem header_first_seen_merge_witness :
    excludedHeaderNames.contains (strLower "Accept") = false
    ∧ pyDictGet "Accept"
        (combinedHeaders [⟨"u", "GET", [("Accept", "x")], "", ""⟩,
          ⟨"u", "GET", [("Accept", "y"), ("X-Tok", "t")], "", ""⟩]) = some "x" := by
  refine ⟨by decide, ?_⟩
  rw [header_first_seen_merge _ "Accept" (by decide)]
  rfl

end Harmodel

namespace Harmodel

/-- The keys of the grouping map after adding one call: unchanged when the
name is already a key, else the name is appended. -/
theorem addToGroup_keys (gs : List (String × List Call)) (name : String) (c : Call) :
    (addToGroup gs name c).map Prod.fst =
      if name ∈ gs.map Prod.fst then gs.map Prod.fst
      else gs.map Prod.fst ++ [name] := by
  induction gs with
  | nil => simp [addToGroup]
  | cons g rest ih =>
    obtain ⟨n, cs⟩ := g
    by_cases h : n = name
    · subst h; simp [addToGroup]
    · simp only [addToGroup, if_neg h, List.map_cons, ih]
      by_cases hm : name ∈ rest.map Prod.fst
      · simp [hm, fun hh : name = n => h hh.symm]
      · simp only [hm, if_false]
        rw [if_neg (fun hmem => by
          rcases List.mem_cons.1 hmem with hh | hh
          · exact h hh.symm
          · exact hm hh)]
        rfl

/-- A name is a group key of the fold exactly when it was one already or
some processed call derives it. -/
theorem groupCalls_foldl_mem (n : String) :
    ∀ (l : List (Nat × Call)) (gs : List (String × List Call)),
      (n ∈ (l.foldl (fun gs p => addToGroup gs (generateMethodName p.2 p.1) p.2) gs).map
          Prod.fst
        ↔ n ∈ gs.map Prod.fst ∨ ∃ p ∈ l, generateMethodName p.2 p.1 = n) := by
  intro l
  induction l with
  | nil => simp
  | cons p rest ih =>
    intro gs
    rw [List.foldl_cons, ih]
    rw [addToGroup_keys]
    constructor
    · intro h
      rcases h with h | h
      · split at h
        · exact Or.inl h
        · rcases List.mem_append.1 h with h | h
          · exact Or.inl h
          · rcases List.mem_singleton.1 h with rfl
            exact Or.inr ⟨p, List.mem_cons_self _ _, rfl⟩
      · exact Or.inr (by rcases h with ⟨q, hq, he⟩; exact ⟨q, List.mem_cons_of_mem _ hq, he⟩)
    · intro h
      rcases h with h | ⟨q, hq, he⟩
      · left
        split
        · exact h
        · exact List.mem_append.2 (Or.inl h)
      · rcases List.mem_cons.1 hq with rfl | hq
        · left
          split
          · rename_i hin
            exact he ▸ hin
          · exact List.mem_append.2 (Or.inr (he ▸ List.mem_singleton_self _))
        · exact Or.inr ⟨q, hq, he⟩

/-- The grouping fold never duplicates a group key. -/
theorem groupCalls_foldl_nodup :
    ∀ (l : List (Nat × Call)) (gs : List (String × List Call)),
      (gs.map Prod.fst).Nodup →
      ((l.foldl (fun gs p => addToGroup gs (generateMethodName p.2 p.1) p.2) gs).map
        Prod.fst).Nodup := by
  intro l
  induction l with
  | nil => intro gs h; exact h
  | cons p rest ih =>
    intro gs hgs
    rw [List.foldl_cons]
    apply ih
    rw [addToGroup_keys]
    split
    · exact hgs
    · rename_i hnin
      rw [List.nodup_append]
      refine ⟨hgs, List.nodup_singleton _, ?_⟩
      intro x hx
      simp only [List.mem_singleton]
      intro hxa
      exact hnin (hxa ▸ hx)

/-- The group keys of a capture are distinct. -/
theorem groupCalls_keys_nodup (calls : List Call) :
    ((groupCalls calls).map Prod.fst).Nodup := by
  unfold groupCalls
  exact groupCalls_foldl_nodup calls.enum [] (by simp)

/-- A name is a group key exactly when some enumerated call derives it. -/
theorem groupCalls_keys_mem (calls : List Call) (n : String) :
    n ∈ (groupCalls calls).map Prod.fst ↔
      ∃ p ∈ calls.enum, generateMethodName p.2 p.1 = n := by
  unfold groupCalls
  rw [groupCalls_foldl_mem]
  simp

/-- The emitted method names are exactly the group keys, in order. -/
theorem clientMethods_names (calls : List Call) (useModels : Bool)
    (modelGen : Option (List (String × String))) :
    (clientMethods calls useModels modelGen).map MethodDef.name =
      (groupCalls calls).map Prod.fst := by
  unfold clientMethods
  rw [List.map_map]
  rfl

/-- C5: The synthesized client has exactly one method definition per
distinct derived endpoint name: a name's multiplicity among the emitted
methods is 1 when some captured call derives it and 0 otherwise, no matter
how many calls map to it. -/
theorem one_method_per_name :
    ∀ (calls : List Call) (useModels : Bool)
      (modelGen : Option (List (String × String))) (n : String),
      ((clientMethods calls useModels modelGen).map MethodDef.name).count n =
        if ∃ p ∈ calls.enum, generateMethodName p.2 p.1 = n then 1 else 0 := by
  intro calls u g n
  rw [clientMethods_names]
  by_cases h : ∃ p ∈ calls.enum, generateMethodName p.2 p.1 = n
  · rw [if_pos h]
    exact List.count_eq_one_of_mem (groupCalls_keys_nodup calls)
      ((groupCalls_keys_mem calls n).2 h)
  · rw [if_neg h]
    exact List.count_eq_zero_of_not_mem (fun hm => h ((groupCalls_keys_mem calls n).1 hm))

/-- When every call with the given URL contributes nothing, the
last-write-wins table entry is empty. -/
theorem lastModelFor_none {u : String} :
    ∀ {l : List (Nat × Call)},
      (∀ p ∈ l, p.2.url = u → callModel p.1 p.2 = none) → lastModelFor u l = none := by
  intro l
  induction l with
  | nil => intro h; rfl
  | cons p rest ih =>
    intro h
    simp only [lastModelFor]
    rw [ih (fun q hq => h q (List.mem_cons_of_mem _ hq))]
    by_cases hu : p.2.url = u
    · simp [hu, h p (List.mem_cons_self _ _) hu]
    · simp [hu]

/-- C6: A call whose response body is present but not valid JSON yields no
model entry — when every call with a URL is in that situation the URL is
absent from the model table — while client generation still emits a method
for the call's group, and when such a call is the group representative with
a non-JSON request body, the method's body is the opaque string payload. -/
theorem non_json_response_handling :
    (∀ (calls : List Call) (u : String),
      (∀ p ∈ calls.enum, p.2.url = u →
        p.2.responseText ≠ "" ∧ jsonLoads p.2.responseText = none) →
      pyDictGet u (generateModelsFromResponses calls) = none)
    ∧ (∀ (calls : List Call) (useModels : Bool)
        (modelGen : Option (List (String × String))),
        ∀ p ∈ calls.enum,
          generateMethodName p.2 p.1 ∈
            (clientMethods calls useModels modelGen).map MethodDef.name)
    ∧ (∀ (call : Call) (methodName : String) (allCalls : List Call)
        (modelName : Option String),
        call.postDataText ≠ "" → jsonLoads call.postDataText = none →
        (generateMethod call methodName allCalls modelName).body =
          BodyKind.opaqueBody call.postDataText) := by
  refine ⟨?_, ?_, ?_⟩
  · intro calls u h
    unfold generateModelsFromResponses
    rw [models_foldl_lookup]
    rw [lastModelFor_none (fun p hp hu => by
      simp [callModel, (h p hp hu).1, (h p hp hu).2])]
    rfl
  · intro calls u g p hp
    rw [clientMethods_names]
    exact (groupCalls_keys_mem calls _).2 ⟨p, hp, rfl⟩
  · intro call mn allCalls modelName hne hj
    simp [generateMethod, hne, hj]

/-- Witness for C6: a call with the non-JSON response `not json` and the
non-JSON request body `raw body`. -/
theorem non_json_response_handling_witness :
    pyDictGet "https://api.test.com/users" (generateModelsFromResponses [badCall]) = none
    ∧ generateMethodName badCall 0 ∈
        (clientMethods [badCall] false none).map MethodDef.name
    ∧ (generateMethod badCall "get_users" [badCall] none).body =
        BodyKind.opaqueBody "raw body" := by
  refine ⟨non_json_response_handling.1 [badCall] _ ?_,
    non_json_response_handling.2.1 [badCall] false none (0, badCall) (by decide),
    non_json_response_handling.2.2 badCall "get_users" [badCall] none
      (by decide) (by rfl)⟩
  intro p hp hu
  have hp2 : p = (0, badCall) := by
    simpa using hp
  subst hp2
  exact ⟨by decide, by rfl⟩

/-- C7: Degenerate top-level JSON values synthesize defined artifacts, never
failures: an empty object yields the record header plus a lone `    pass`
line (a valid empty record), while an empty array and every bare primitive
yield a one-line `# Simple type: ...` comment containing no class
declaration. -/
theorem degenerate_structures :
    (∀ modelName : String, analyzeJsonStructure (.obj []) modelName =
      strJoinNl
        ["from typing import Optional, List, Dict, Any",
         "from dataclasses import dataclass", "", "", "@dataclass",
         "class " ++ modelName ++ ":",
         "    \"\"\"Model generated from HAR response data.\"\"\"",
         "    pass"])
    ∧ (∀ n, analyzeJsonStructure (.arr []) n = "# Simple type: list")
    ∧ (∀ n, analyzeJsonStructure .null n = "# Simple type: NoneType")
    ∧ (∀ b n, analyzeJsonStructure (.bool b) n = "# Simple type: bool")
    ∧ (∀ k n, analyzeJsonStructure (.int k) n = "# Simple type: int")
    ∧ (∀ m e n, analyzeJsonStructure (.float m e) n = "# Simple type: float")
    ∧ (∀ s n, analyzeJsonStructure (.str s) n = "# Simple type: str")
    ∧ (∀ n, findClassName (analyzeJsonStructure (.arr []) n) = none)
    ∧ (∀ k n, findClassName (analyzeJsonStructure (.int k) n) = none) :=
  ⟨fun _ => rfl, fun _ => rfl, fun _ => rfl, fun _ _ => rfl, fun _ _ => rfl,
   fun _ _ _ => rfl, fun _ _ => rfl, fun _ => rfl, fun _ _ => rfl⟩

end Harmodel

namespace Harmodel

/-- One step of `List.isPrefixOf` on two cons cells. -/
theorem isPrefixOf_cons_cons {a b : Char} {as bs : List Char} :
    (a :: as).isPrefixOf (b :: bs) = (a == b && as.isPrefixOf bs) := rfl

/-- A match attempt not starting with `c` fails at the literal. -/
theorem classMatchAt_not_c {c : Char} (l : List Char) (h : ¬ c = 'c') :
    classMatchAt (c :: l) = none := by
  unfold classMatchAt
  rw [if_neg ?hc]
  case hc =>
    intro hp
    have h2 : (('c' :: ('l' :: 'a' :: 's' :: 's' :: [])).isPrefixOf (c :: l)) = true := hp
    rw [isPrefixOf_cons_cons, Bool.and_eq_true] at h2
    exact h (eq_of_beq h2.1).symm

/-- One step of the `re.search` position scan. -/
theorem findClassAux_cons (c : Char) (l : List Char) :
    findClassAux (c :: l) =
      match classMatchAt (c :: l) with
      | some w => some w
      | none => findClassAux l := rfl

/-- The scan skips a position that cannot start `class`. -/
theorem findClassAux_skip {c : Char} (l : List Char) (h : ¬ c = 'c') :
    findClassAux (c :: l) = findClassAux l := by
  rw [findClassAux_cons, classMatchAt_not_c l h]

/-- The scan skips the `c` of `Dict` (`t` breaks the literal). -/
theorem findClassAux_ct (l : List Char) :
    findClassAux ('c' :: 't' :: l) = findClassAux ('t' :: l) := by
  rw [findClassAux_cons, show classMatchAt ('c' :: 't' :: l) = none from rfl]

/-- The scan skips the `c` of `dataclasses` (`e` follows the literal
where whitespace is required). -/
theorem findClassAux_pat2 (l : List Char) :
    findClassAux ('c' :: 'l' :: 'a' :: 's' :: 's' :: 'e' :: l) =
      findClassAux ('l' :: 'a' :: 's' :: 's' :: 'e' :: l) := by
  rw [findClassAux_cons,
    show classMatchAt ('c' :: 'l' :: 'a' :: 's' :: 's' :: 'e' :: l) = none from rfl]

/-- The scan skips the `c` of the imported `dataclass` (after the
newlines comes `@`, not a word character). -/
theorem findClassAux_pat3 (l : List Char) :
    findClassAux ('c' :: 'l' :: 'a' :: 's' :: 's' :: '\n' :: '\n' :: '\n' :: '@' :: l) =
      findClassAux ('l' :: 'a' :: 's' :: 's' :: '\n' :: '\n' :: '\n' :: '@' :: l) := by
  rw [findClassAux_cons,
    show classMatchAt ('c' :: 'l' :: 'a' :: 's' :: 's' :: '\n' :: '\n' :: '\n' :: '@' :: l)
      = none from rfl]

/-- The scan skips the `c` of `@dataclass` (the captured word would be
the following `class` keyword, which is followed by a space, not `:`). -/
theorem findClassAux_pat4 (l : List Char) :
    findClassAux
        ('c' :: 'l' :: 'a' :: 's' :: 's' :: '\n' ::
          'c' :: 'l' :: 'a' :: 's' :: 's' :: ' ' :: l) =
      findClassAux ('l' :: 'a' :: 's' :: 's' :: '\n' ::
        'c' :: 'l' :: 'a' :: 's' :: 's' :: ' ' :: l) := by
  rw [findClassAux_cons,
    show classMatchAt
      ('c' :: 'l' :: 'a' :: 's' :: 's' :: '\n' ::
        'c' :: 'l' :: 'a' :: 's' :: 's' :: ' ' :: l)
      = none from rfl]

/-- `takeWhile` over an append whose left part satisfies the predicate. -/
theorem takeWhile_append_all {p : Char → Bool} :
    ∀ {l1 l2 : List Char}, (∀ c ∈ l1, p c = true) →
      (l1 ++ l2).takeWhile p = l1 ++ l2.takeWhile p := by
  intro l1
  induction l1 with
  | nil => intro l2 h; simp
  | cons a rest ih =>
    intro l2 h
    rw [List.cons_append, List.takeWhile_cons, h a (List.mem_cons_self _ _)]
    rw [ih (fun c hc => h c (List.mem_cons_of_mem _ hc))]
    rfl

/-- `dropWhile` over an append whose left part satisfies the predicate. -/
theorem dropWhile_append_all {p : Char → Bool} :
    ∀ {l1 l2 : List Char}, (∀ c ∈ l1, p c = true) →
      (l1 ++ l2).dropWhile p = l2.dropWhile p := by
  intro l1
  induction l1 with
  | nil => intro l2 h; simp
  | cons a rest ih =>
    intro l2 h
    rw [List.cons_append, List.dropWhile_cons, h a (List.mem_cons_self _ _)]
    exact ih (fun c hc => h c (List.mem_cons_of_mem _ hc))

/-- Word characters are not whitespace. -/
theorem word_not_ws {c : Char} (h : isWordChar c = true) : c.isWhitespace = false := by
  by_contra hw
  rw [Bool.not_eq_false] at hw
  unfold Char.isWhitespace at hw
  simp only [Bool.or_eq_true, decide_eq_true_eq] at hw
  rcases hw with ((rfl | rfl) | rfl) | rfl <;> exact absurd h (by decide)

end Harmodel

namespace Harmodel

/-- The match attempt at the emitted `class {name}Item:` line succeeds and
captures `{name}Item`, for any word-character name. -/
theorem classMatchAt_success (nm tail : List Char)
    (h : ∀ c ∈ nm, isWordChar c = true) :
    classMatchAt
        ('c' :: 'l' :: 'a' :: 's' :: 's' :: ' ' ::
          (nm ++ ('I' :: 't' :: 'e' :: 'm' :: ':' :: tail))) =
      some (nm ++ ('I' :: 't' :: 'e' :: 'm' :: [])) := by
  have hXtw : (nm ++ ('I' :: 't' :: 'e' :: 'm' :: ':' :: tail)).takeWhile
      Char.isWhitespace = [] := by
    cases hnm : nm with
    | nil => rfl
    | cons c0 nm2 =>
      rw [List.cons_append, List.takeWhile_cons,
        word_not_ws (h c0 (hnm ▸ List.mem_cons_self _ _))]
      rfl
  have hXdw : (nm ++ ('I' :: 't' :: 'e' :: 'm' :: ':' :: tail)).dropWhile
      Char.isWhitespace = nm ++ ('I' :: 't' :: 'e' :: 'm' :: ':' :: tail) := by
    cases hnm : nm with
    | nil => rfl
    | cons c0 nm2 =>
      rw [List.cons_append, List.dropWhile_cons,
        word_not_ws (h c0 (hnm ▸ List.mem_cons_self _ _))]
      rfl
  unfold classMatchAt
  rw [if_pos (by rfl)]
  rw [show ('c' :: 'l' :: 'a' :: 's' :: 's' :: ' ' ::
      (nm ++ ('I' :: 't' :: 'e' :: 'm' :: ':' :: tail))).drop 5
      = ' ' :: (nm ++ ('I' :: 't' :: 'e' :: 'm' :: ':' :: tail)) from rfl]
  rw [List.takeWhile_cons, List.dropWhile_cons,
    show Char.isWhitespace ' ' = true from rfl]
  simp only [eq_self_iff_true, if_true]
  rw [hXtw, hXdw]
  rw [takeWhile_append_all h, dropWhile_append_all h]
  rw [show ('I' :: 't' :: 'e' :: 'm' :: ':' :: tail).takeWhile isWordChar
      = 'I' :: 't' :: 'e' :: 'm' :: [] from rfl]
  rw [show ('I' :: 't' :: 'e' :: 'm' :: ':' :: tail).dropWhile isWordChar
      = ':' :: tail from rfl]
  rw [if_pos ⟨by simp, by simp, rfl⟩]

end Harmodel

namespace Harmodel

/-- The scan finds no match inside the fixed model-header text: the first
match attempt that can succeed is at the emitted class line. -/
theorem findClassAux_header (t : List Char) :
    findClassAux
        (("from typing import Optional, List, Dict, Any\nfrom dataclasses import dataclass\n\n\n@dataclass\n" : String).data
          ++ ('c' :: 'l' :: 'a' :: 's' :: 's' :: ' ' :: t)) =
      findClassAux ('c' :: 'l' :: 'a' :: 's' :: 's' :: ' ' :: t) := by
  rw [show ("from typing import Optional, List, Dict, Any\nfrom dataclasses import dataclass\n\n\n@dataclass\n" : String).data
      = ['f','r','o','m',' ','t','y','p','i','n','g',' ','i','m','p','o','r','t',' ','O','p','t','i','o','n','a','l',',',' ','L','i','s','t',',',' ','D','i','c','t',',',' ','A','n','y','\n','f','r','o','m',' ','d','a','t','a','c','l','a','s','s','e','s',' ','i','m','p','o','r','t',' ','d','a','t','a','c','l','a','s','s','\n','\n','\n','@','d','a','t','a','c','l','a','s','s','\n'] from rfl]
  simp only [List.cons_append, List.nil_append]
  simp [findClassAux_skip, findClassAux_ct, findClassAux_pat2, findClassAux_pat3,
    findClassAux_pat4]

end Harmodel

namespace Harmodel

/-- Strings with equal character data are equal. -/
theorem strExt {a b : String} (h : a.data = b.data) : a = b :=
  congrArg String.mk h

/-- The first `class (\\w+):` capture in a list-of-objects model text is the
item class `{name}Item` — the dict model of the first element named by
`_generate_list_model` (models.py:77). -/
theorem findClassName_listModel (name : String) (fields : List (String × Json))
    (rest : List Json) (h : ∀ c ∈ name.data, isWordChar c = true) :
    findClassName (generateListModel (Json.obj fields :: rest) name) =
      some (name ++ "Item") := by
  have key : ∀ tl : List Char,
      findClassAux
        (("from typing import Optional, List, Dict, Any\nfrom dataclasses import dataclass\n\n\n@dataclass\n" : String).data
          ++ ('c' :: 'l' :: 'a' :: 's' :: 's' :: ' ' ::
            (name.data ++ ('I' :: 't' :: 'e' :: 'm' :: ':' :: tl)))) =
        some (name.data ++ ('I' :: 't' :: 'e' :: 'm' :: [])) := by
    intro tl
    rw [findClassAux_header, findClassAux_cons, classMatchAt_success name.data tl h]
  have E : generateListModel (Json.obj fields :: rest) name =
      ("from typing import Optional, List, Dict, Any\nfrom dataclasses import dataclass\n\n\n@dataclass\n" : String)
        ++ ("class " ++ ((name ++ "Item") ++ (":" ++
          (("\n" ++ strJoinNl ("    \"\"\"Model generated from HAR response data.\"\"\"" ::
            (if fields.isEmpty then ["    pass"]
             else fields.map (fun p => "    " ++ sanitizeFieldName p.1 ++ ": " ++
               inferType p.2 p.1)))) ++
           ("\n\n# " ++ (name ++ (" = List[" ++ (name ++ "Item]")))))))) := by
    apply strExt
    rw [show ("from typing import Optional, List, Dict, Any\nfrom dataclasses import dataclass\n\n\n@dataclass\n" : String)
        = ("from typing import Optional, List, Dict, Any" : String) ++ "\n" ++
          "from dataclasses import dataclass" ++ "\n" ++ "" ++ "\n" ++ "" ++ "\n" ++
          "@dataclass" ++ "\n" from rfl]
    cases hf : fields with
    | nil =>
      set_option maxRecDepth 10000 in
      simp [generateListModel, generateDictModel, dictModelLines, strJoinNl,
        String.data_append, List.append_assoc]
    | cons f fs =>
      set_option maxRecDepth 10000 in
      simp [generateListModel, generateDictModel, dictModelLines, strJoinNl,
        String.data_append, List.append_assoc]
  unfold findClassName
  rw [E]
  simp only [String.data_append]
  simp only [List.cons_append, List.nil_append, List.append_assoc]
  exact Eq.trans
    (congrArg (Option.map String.mk)
      (key ('\n' :: ((strJoinNl
        ("    \"\"\"Model generated from HAR response data.\"\"\"" ::
          (if fields.isEmpty then ["    pass"]
           else fields.map (fun p => "    " ++ sanitizeFieldName p.1 ++ ": " ++
             inferType p.2 p.1)))).data ++
        ('\n' :: '\n' :: '#' :: ' ' ::
          (name.data ++ (' ' :: '=' :: ' ' :: 'L' :: 'i' :: 's' :: 't' :: '[' ::
            (name.data ++ ('I' :: 't' :: 'e' :: 'm' :: ']' :: [])))))))))
    rfl

end Harmodel

namespace Harmodel

/-- C10: With model annotations enabled, the return type attached to a
method is the captured group of the first `class\s+(\w+):` match in the
stored model text for the call's URL (and nothing without a model
generator).  Consequently, a URL whose response was a non-empty array of
objects is annotated with the `{Name}Item` item-class name rather than a
list type, and a URL whose stored model is a comment-only placeholder
(primitive or empty-array response) yields no declared return type even
though a model entry exists. -/
theorem return_type_from_first_class_decl :
    (∀ (models : List (String × String)) (call : Call),
      getModelNameForCall (some models) call =
        (pyDictGet call.url models).bind findClassName)
    ∧ (∀ call : Call, getModelNameForCall none call = none)
    ∧ (∀ (name : String) (fields : List (String × Json)) (rest : List Json),
        (∀ c ∈ name.data, isWordChar c = true) →
        findClassName (generateListModel (Json.obj fields :: rest) name) =
          some (name ++ "Item"))
    ∧ (∀ n, findClassName (analyzeJsonStructure (.arr []) n) = none)
    ∧ (∀ k n, findClassName (analyzeJsonStructure (.int k) n) = none)
    ∧ (∀ s n, findClassName (analyzeJsonStructure (.str s) n) = none) := by
  refine ⟨?_, fun _ => rfl, findClassName_listModel, fun _ => rfl,
    fun _ _ => rfl, fun _ _ => rfl⟩
  intro models call
  show (match pyDictGet call.url models with
      | some code => findClassName code
      | none => none) =
    (pyDictGet call.url models).bind findClassName
  cases pyDictGet call.url models <;> rfl

/-- Witness for C10: the `UsersModel` list-of-objects model is annotated
with `UsersModelItem`. -/
theorem return_type_from_first_class_decl_witness :
    (∀ c ∈ ("UsersModel" : String).data, isWordChar c = true)
    ∧ findClassName
        (generateListModel [Json.obj [("id", Json.int 1)]] "UsersModel") =
        some "UsersModelItem" := by
  refine ⟨by decide, ?_⟩
  exact return_type_from_first_class_decl.2.2.1 "UsersModel"
    [("id", Json.int 1)] [] (by decide)

end Harmodel
